import Mathlib

/-!
Verification of the diff-extraction and summarization core of commit-gpt
(src/src/main.rs), shallowly embedded in Lean. Byte strings are `List Nat`
(each element a byte value), decoded text is `List Char` or `String`, and
fallible steps (Rust panics, `Result` errors) are `Option` / `Except`.
-/

set_option autoImplicit false

namespace CommitGPT

/-! ## Data model (main.rs lines 71-75 and the git2 types the core consumes) -/

/-- Status of a file delta, mirroring the `git2::Delta` enumeration. -/
inductive DeltaStatus where
  | Unmodified | Added | Deleted | Modified | Renamed | Copied
  | Ignored | Untracked | Typechange | Unreadable | Conflicted
deriving DecidableEq

/-- The per-file delta information the line callback reads: the new-file
path, the old-file path (each possibly absent), and the delta status. -/
structure DiffDelta where
  new_path : Option String
  old_path : Option String
  status : DeltaStatus
deriving DecidableEq

/-- One changed line as the diff traversal presents it: raw byte content
and a one-character origin marker. -/
structure DiffLine where
  content : List Nat
  origin : Char
deriving DecidableEq

/-- `FileChange` record, main.rs lines 71-75. -/
structure FileChange where
  file_path : String
  change_type : String
  summaries : List String
deriving DecidableEq

/-! ## UTF-8 lossy decoding (`String::from_utf8_lossy`, main.rs line 269)

Rust decodes the raw bytes with the substitution-of-maximal-subparts
policy: an invalid lead byte is replaced by one U+FFFD; a sequence broken
by a non-continuation byte is replaced by one U+FFFD and decoding resumes
at the offending byte; a sequence truncated at end of input is replaced by
one U+FFFD. -/

/-- The Unicode replacement character U+FFFD. -/
def repl : Char := Char.ofNat 0xFFFD

/-- Is `b` a UTF-8 continuation byte (0x80-0xBF)? -/
def isCont (b : Nat) : Bool := 0x80 ≤ b && b ≤ 0xBF

/-- Valid second byte of a three-byte sequence whose lead byte is `b`
(0xE0 restricts to 0xA0-0xBF, 0xED to 0x80-0x9F, excluding overlong forms
and surrogates). -/
def isCont3 (b b2 : Nat) : Bool :=
  if b = 0xE0 then 0xA0 ≤ b2 && b2 ≤ 0xBF
  else if b = 0xED then 0x80 ≤ b2 && b2 ≤ 0x9F
  else isCont b2

/-- Valid second byte of a four-byte sequence whose lead byte is `b`
(0xF0 restricts to 0x90-0xBF, 0xF4 to 0x80-0x8F, keeping code points in
0x10000-0x10FFFF). -/
def isCont4 (b b2 : Nat) : Bool :=
  if b = 0xF0 then 0x90 ≤ b2 && b2 ≤ 0xBF
  else if b = 0xF4 then 0x80 ≤ b2 && b2 ≤ 0x8F
  else isCont b2

/-- Lossy UTF-8 decoding, fuel-recursive so that it is structural (on the
fuel) and reduces in the kernel. Every step consumes at least one byte, so
fuel equal to the byte count is enough; with the fuel exhausted the rest
of the input is dropped, which never happens from `from_utf8_lossy`. -/
def from_utf8_lossy_aux : Nat → List Nat → List Char
  | 0, _ => []
  | _ + 1, [] => []
  | fuel + 1, b :: bs =>
    if b ≤ 0x7F then Char.ofNat b :: from_utf8_lossy_aux fuel bs
    else if 0xC2 ≤ b && b ≤ 0xDF then
      match bs with
      | [] => [repl]
      | b2 :: bs2 =>
        if isCont b2 then
          Char.ofNat ((b - 0xC0) * 0x40 + (b2 - 0x80)) :: from_utf8_lossy_aux fuel bs2
        else repl :: from_utf8_lossy_aux fuel bs
    else if 0xE0 ≤ b && b ≤ 0xEF then
      match bs with
      | [] => [repl]
      | b2 :: bs2 =>
        if isCont3 b b2 then
          match bs2 with
          | [] => [repl]
          | b3 :: bs3 =>
            if isCont b3 then
              Char.ofNat ((b - 0xE0) * 0x1000 + (b2 - 0x80) * 0x40 + (b3 - 0x80)) ::
                from_utf8_lossy_aux fuel bs3
            else repl :: from_utf8_lossy_aux fuel bs2
        else repl :: from_utf8_lossy_aux fuel bs
    else if 0xF0 ≤ b && b ≤ 0xF4 then
      match bs with
      | [] => [repl]
      | b2 :: bs2 =>
        if isCont4 b b2 then
          match bs2 with
          | [] => [repl]
          | b3 :: bs3 =>
            if isCont b3 then
              match bs3 with
              | [] => [repl]
              | b4 :: bs4 =>
                if isCont b4 then
                  Char.ofNat ((b - 0xF0) * 0x40000 + (b2 - 0x80) * 0x1000 +
                    (b3 - 0x80) * 0x40 + (b4 - 0x80)) :: from_utf8_lossy_aux fuel bs4
                else repl :: from_utf8_lossy_aux fuel bs3
            else repl :: from_utf8_lossy_aux fuel bs2
        else repl :: from_utf8_lossy_aux fuel bs
    else repl :: from_utf8_lossy_aux fuel bs

/-- Lossy UTF-8 decoding of a byte list, following the policy of
`String::from_utf8_lossy`. Total: every anomaly yields U+FFFD. -/
def from_utf8_lossy (bytes : List Nat) : List Char :=
  from_utf8_lossy_aux bytes.length bytes

/-! ## Whitespace trimming (`str::trim`, main.rs line 269) -/

/-- Unicode White_Space test used by the `trim` of Rust. -/
def rust_is_whitespace (c : Char) : Bool :=
  [0x09, 0x0A, 0x0B, 0x0C, 0x0D, 0x20, 0x85, 0xA0, 0x1680,
   0x2000, 0x2001, 0x2002, 0x2003, 0x2004, 0x2005, 0x2006, 0x2007,
   0x2008, 0x2009, 0x200A, 0x2028, 0x2029, 0x202F, 0x205F, 0x3000].contains c.toNat

/-- Trim leading and trailing whitespace characters, as `str::trim`. -/
def rust_trim (cs : List Char) : List Char :=
  ((cs.dropWhile rust_is_whitespace).reverse.dropWhile rust_is_whitespace).reverse

/-! ## Truncation (main.rs lines 271-276)

The source measures `content.len()` (UTF-8 byte length of the decoded,
trimmed string) and slices `&content[..77]` (a byte range). Slicing a Rust
string at a byte index that is not a character boundary panics at run
time; the panic is modelled as `none`. -/

/-- UTF-8 byte length of one character (`char::len_utf8`). -/
def len_utf8 (c : Char) : Nat :=
  if c.toNat < 0x80 then 1
  else if c.toNat < 0x800 then 2
  else if c.toNat < 0x10000 then 3
  else 4

/-- UTF-8 byte length of a character list (`String::len` of the decoded
string). -/
def utf8_len (cs : List Char) : Nat := cs.foldl (fun n c => n + len_utf8 c) 0

/-- The first `n` bytes of a character list as whole characters:
`some` prefix when byte index `n` falls on a character boundary, `none`
(the slicing panic) otherwise. -/
def take_bytes : Nat → List Char → Option (List Char)
  | 0, _ => some []
  | _ + 1, [] => none
  | n + 1, c :: cs =>
    if len_utf8 c ≤ n + 1 then (take_bytes (n + 1 - len_utf8 c) cs).map (c :: ·)
    else none

/-- The truncation of main.rs lines 272-276: content longer than 80 bytes
becomes its first 77 bytes followed by "...", and the byte slice panics
(`none`) off character boundaries; content of at most 80 bytes is kept
unchanged. -/
def truncate_content (content : List Char) : Option String :=
  if utf8_len content > 80 then
    (take_bytes 77 content).map (fun cs => String.mk cs ++ "...")
  else
    some (String.mk content)

/-! ## LineSummarizer (`summarize_change`, main.rs lines 268-283) -/

/-- `summarize_change`: decode the line content lossily, trim it, compute
the truncation (before inspecting the origin, as in the source), then
annotate by origin. The match of the source on the origin character is
rendered as an if-chain over the same disjoint literals. `none` models the
truncation panic. -/
def summarize_change (line : DiffLine) : Option String :=
  let content := rust_trim (from_utf8_lossy line.content)
  (truncate_content content).map (fun truncated_content =>
    if line.origin = '+' then "Added: " ++ truncated_content
    else if line.origin = '-' then "Removed: " ++ truncated_content
    else "")

/-! ## ChangeCollector (`collect_changes`, main.rs lines 221-266)

The aggregation map `changes_map : HashMap<String, FileChange>` is
embedded as an association list keyed on the path; the contents agree with
the hash map, only the iteration order of the final collection is fixed to
insertion order here where the source leaves it unspecified. -/

/-- First-match association-list lookup, the access discipline of the
`HashMap` (keys are unique, so first match is the match). -/
def alLookup {α : Type} : List (String × α) → String → Option α
  | [], _ => none
  | kv :: rest, k => if kv.1 = k then some kv.2 else alLookup rest k

/-- The path of a delta, main.rs lines 231-236: the new-file path, else
the old-file path, else the literal sentinel. -/
def delta_file_path (delta : DiffDelta) : String :=
  (delta.new_path.orElse (fun _ => delta.old_path)).getD "Unknown file"

/-- The change kind of a delta status, main.rs lines 238-246: five named
kinds, any other status collapsing to "Modified". -/
def delta_change_type (s : DeltaStatus) : String :=
  match s with
  | .Added => "Added"
  | .Deleted => "Deleted"
  | .Modified => "Modified"
  | .Renamed => "Renamed"
  | .Copied => "Copied"
  | _ => "Modified"

/-- `changes_map.entry(k).or_insert(v)`: keep the map unchanged when the
key is present, append the fresh record otherwise. -/
def entry_or_insert (m : List (String × FileChange)) (k : String) (v : FileChange) :
    List (String × FileChange) :=
  match alLookup m k with
  | some _ => m
  | none => m ++ [(k, v)]

/-- Append one summary to the record stored at key `k`. -/
def push_summary (m : List (String × FileChange)) (k : String) (s : String) :
    List (String × FileChange) :=
  m.map (fun kv =>
    if kv.1 = k then (kv.1, { kv.2 with summaries := kv.2.summaries ++ [s] }) else kv)

/-- The line callback of main.rs lines 230-261: derive the path and the
change kind from the delta, summarize the line (`none` when the summary
computation panics), insert the record for a first-seen path, and push the
summary when it is non-empty. -/
def process_line (m : List (String × FileChange)) (delta : DiffDelta) (line : DiffLine) :
    Option (List (String × FileChange)) :=
  let file_path := delta_file_path delta
  let change_type := delta_change_type delta.status
  (summarize_change line).map (fun summary =>
    let m1 := entry_or_insert m file_path
      { file_path := file_path, change_type := change_type, summaries := [] }
    if summary.isEmpty then m1 else push_summary m1 file_path summary)

/-- A structural difference as the traversal presents it: per file delta,
a list of hunks, each a list of lines. The file and hunk callbacks of the
source only return `true`, so only the line-level data matters. -/
abbrev Diff : Type := List (DiffDelta × List (List DiffLine))

/-- Flatten the hunks of one delta into delta-attributed lines, in
traversal order. -/
def flatten_hunks (delta : DiffDelta) : List (List DiffLine) → List (DiffDelta × DiffLine)
  | [] => []
  | hunk :: rest => hunk.map (fun l => (delta, l)) ++ flatten_hunks delta rest

/-- Flatten a difference into delta-attributed lines, in traversal order
(file delta, then hunk, then line). -/
def flatten_diff : Diff → List (DiffDelta × DiffLine)
  | [] => []
  | fd :: rest => flatten_hunks fd.1 fd.2 ++ flatten_diff rest

/-- Run the line callback over the flattened lines, threading the map; a
panicking line aborts the whole traversal (`none`). -/
def process_lines (m : List (String × FileChange)) :
    List (DiffDelta × DiffLine) → Option (List (String × FileChange))
  | [] => some m
  | dl :: rest =>
    match process_line m dl.1 dl.2 with
    | none => none
    | some m1 => process_lines m1 rest

/-- `collect_changes`, main.rs lines 221-266: traverse every line of the
diff, building the path-keyed map; `none` models the panic that the
`unwrap` on the traversal would re-raise. The source then collects the map
values in unspecified hash order; here they stay in insertion order. -/
def collect_changes (diff : Diff) : Option (List (String × FileChange)) :=
  process_lines [] (flatten_diff diff)

/-! ## ChangeSetFormatter (`format_changes_for_prompt`, main.rs lines 285-299) -/

/-- `format_changes_for_prompt`: one heading line per file change followed
by one indented bullet line per stored summary, accumulated by string
pushes exactly as the nested loops of the source. -/
def format_changes_for_prompt (changes : List FileChange) : String :=
  changes.foldl
    (fun formatted change =>
      change.summaries.foldl
        (fun f summary => f ++ "  - " ++ summary ++ "\n")
        (formatted ++ "- **" ++ change.file_path ++ "**: " ++ change.change_type ++ "\n"))
    ""

/-- Rendering of the summaries of one file change as the specification
words it: one indented bullet line per entry, in stored order. -/
def spec_bullets : List String → String
  | [] => ""
  | s :: rest => "  - " ++ s ++ "\n" ++ spec_bullets rest

/-- Rendering of one file change as the specification words it: the
heading line followed by the bullet lines, no escaping anywhere. -/
def spec_render_change (c : FileChange) : String :=
  "- **" ++ c.file_path ++ "**: " ++ c.change_type ++ "\n" ++ spec_bullets c.summaries

/-- Rendering of a whole change list as the specification words it: the
empty string for the empty list, otherwise the concatenated per-file
blocks in order. -/
def spec_render : List FileChange → String
  | [] => ""
  | c :: rest => spec_render_change c ++ spec_render rest

/-! ## SnapshotResolver and DiffEngine (`get_combined_diff`, main.rs lines 192-219)

The repository handle is embedded by the results of the collaborator
calls the function makes: the peeled head tree, the index, and the two
native diff computations. A computed diff value is opaque in the source;
it is modelled by the request that produced it (endpoints plus options).
Collaborator failures are injectable through the repository value. -/

/-- An underlying git failure (`git2::Error`), identified by its message. -/
structure GitErr where
  message : String
deriving DecidableEq

/-- The two diff options the source sets, main.rs lines 193-204. -/
structure DiffOptions where
  include_untracked : Bool
  recurse_untracked_dirs : Bool
deriving DecidableEq

/-- A tree snapshot: path-keyed blob contents. -/
abbrev Tree : Type := List (String × String)

/-- The index snapshot: path-keyed blob contents. -/
abbrev GitIndex : Type := List (String × String)

/-- A diff request: which two snapshots are compared, with which options.
The opaque diff value of the source is identified by this request. -/
inductive DiffRequest where
  | treeToWorkdir (tree : Tree) (opts : DiffOptions)
  | treeToIndex (tree : Tree) (index : GitIndex) (opts : DiffOptions)

/-- The repository handle, embedded as the results of the collaborator
calls `get_combined_diff` can make. `head_tree` is the combined result of
`repo.head()?.peel_to_tree()?`; a fresh repository with no commits yields
an error there (unborn branch). The two `_err` fields inject failures of
the native diff computations. -/
structure Repo where
  head_tree : Except GitErr Tree
  index : Except GitErr GitIndex
  workdir_diff_err : Option GitErr
  index_diff_err : Option GitErr

/-- The error type of the program, main.rs lines 77-96. Payloads that are
opaque to the core (io, http, json errors) are kept as messages. -/
inductive CommitGPTError where
  | ApiKeyReadError (path : String) (ioMessage : String)
  | GitError (err : GitErr)
  | HttpRequestError (message : String)
  | ApiErrorStatus (status : Nat)
  | ApiResponseParseError (message : String)
  | NoCommitMessage

/-- `repo.diff_tree_to_workdir`: the native computation, failing exactly
when the injected failure is present, and otherwise producing the diff
identified by its request. -/
def diff_tree_to_workdir (repo : Repo) (tree : Tree) (opts : DiffOptions) :
    Except GitErr DiffRequest :=
  match repo.workdir_diff_err with
  | some e => .error e
  | none => .ok (.treeToWorkdir tree opts)

/-- `repo.diff_tree_to_index`: the native computation, failing exactly
when the injected failure is present, and otherwise producing the diff
identified by its request. -/
def diff_tree_to_index (repo : Repo) (tree : Tree) (index : GitIndex) (opts : DiffOptions) :
    Except GitErr DiffRequest :=
  match repo.index_diff_err with
  | some e => .error e
  | none => .ok (.treeToIndex tree index opts)

/-- `get_combined_diff`, main.rs lines 192-219: build the options from the
flag, resolve the head tree (every failure there propagates wrapped in
`GitError` by the `?` conversion), then request the tree-to-workdir diff
when unstaged changes are included, and the tree-to-index diff otherwise. -/
def get_combined_diff (repo : Repo) (include_unstaged : Bool) :
    Except CommitGPTError DiffRequest :=
  let diff_opts : DiffOptions :=
    if include_unstaged then
      { include_untracked := true, recurse_untracked_dirs := true }
    else
      { include_untracked := false, recurse_untracked_dirs := false }
  match repo.head_tree with
  | .error e => .error (.GitError e)
  | .ok head =>
    if include_unstaged then
      match diff_tree_to_workdir repo head diff_opts with
      | .error e => .error (.GitError e)
      | .ok d => .ok d
    else
      match repo.index with
      | .error e => .error (.GitError e)
      | .ok index =>
        match diff_tree_to_index repo head index diff_opts with
        | .error e => .error (.GitError e)
        | .ok d => .ok d

/-- Modelled from the spec: the native diff between a tree and the index
(the DiffEngine collaborator, not part of this source file) enumerates
only paths present in the tree or in the index whose stored contents
differ between the two; the working tree takes no part in it (spec
sections 4.2 and 6). -/
def indexDiffPaths (t : Tree) (i : GitIndex) : List String :=
  ((t ++ i).map Prod.fst).filter (fun p => alLookup t p ≠ alLookup i p)

/-! ## Concrete inputs used by counterexamples and witnesses -/

/-- 27 copies of the euro sign, UTF-8 encoded: 81 bytes, 27 characters.
Byte index 77 falls inside the 26th character. -/
def euro_bytes : List Nat := (List.replicate 27 [0xE2, 0x82, 0xAC]).flatten

/-- 77 ASCII letters followed by two euro signs: 83 bytes, 79 characters.
Byte index 77 falls on a character boundary. -/
def mixed_bytes : List Nat := List.replicate 77 0x61 ++ [0xE2, 0x82, 0xAC, 0xE2, 0x82, 0xAC]

/-- A diff with one modified file whose first added line has the 27-euro
content and whose second added line is plain ASCII. -/
def euro_diff : Diff :=
  [(⟨some "f.txt", none, .Modified⟩, [[⟨euro_bytes, '+'⟩, ⟨[0x68, 0x69], '+'⟩]])]

/-- A fresh repository: no commits yet, so resolving the head fails. -/
def fresh_repo : Repo :=
  { head_tree := .error ⟨"reference not found"⟩
    index := .ok []
    workdir_diff_err := none
    index_diff_err := none }

/-- A repository whose snapshot resolution (head peeling) fails. -/
def repo_head_fail : Repo :=
  { head_tree := .error ⟨"object corrupt"⟩
    index := .ok []
    workdir_diff_err := none
    index_diff_err := none }

/-- A repository whose snapshot resolution succeeds but whose native diff
computation fails with the same underlying git error. -/
def repo_diff_fail : Repo :=
  { head_tree := .ok []
    index := .ok []
    workdir_diff_err := some ⟨"object corrupt"⟩
    index_diff_err := none }

/-- A healthy repository with one tracked file staged as modified. -/
def c8_repo : Repo :=
  { head_tree := .ok [("a.txt", "old")]
    index := .ok [("a.txt", "new")]
    workdir_diff_err := none
    index_diff_err := none }

/-! ## Theorems -/

/-- C1: the claim states character-based truncation that never splits a
multi-byte character and leaves content of at most 80 characters
unchanged. The code measures and slices bytes: on a trimmed line of 79
characters (83 bytes) it truncates to the first 77 bytes plus the
ellipsis instead of returning the content unchanged. -/
theorem truncation_counts_bytes_not_chars :
    (rust_trim (from_utf8_lossy mixed_bytes)).length = 79 ∧
    summarize_change ⟨mixed_bytes, '+'⟩ =
      some ("Added: " ++ String.mk (List.replicate 77 'a') ++ "...") :=
  ⟨by decide, by decide⟩

/-- C2: the claim states the collector and summarizer never fail. On a
line whose trimmed content is 27 euro signs (81 bytes), the byte slice
`&content[..77]` falls inside a character and panics, aborting the whole
traversal and discarding the rest of the diff (the well-formed ASCII line
that follows). -/
theorem collector_aborts_on_multibyte_boundary :
    collect_changes euro_diff = none ∧ summarize_change ⟨euro_bytes, '+'⟩ = none :=
  ⟨by decide, by decide⟩

/-- C3 counterexample: on a repository with no established history tip the
claim says the resolver does not fail and selects the index as baseline;
the code propagates the head-resolution error for both flag values. -/
theorem fresh_repo_diff_fails :
    get_combined_diff fresh_repo true = .error (.GitError ⟨"reference not found"⟩) ∧
    get_combined_diff fresh_repo false = .error (.GitError ⟨"reference not found"⟩) :=
  ⟨rfl, rfl⟩

/-- C3 amended: any failure to resolve the head tree, the no-commits state
included, propagates to the caller as a Git failure; there is no
index-baseline fallback. -/
theorem head_error_propagates (repo : Repo) (b : Bool) (e : GitErr)
    (h : repo.head_tree = .error e) :
    get_combined_diff repo b = .error (.GitError e) := by
  cases b <;> simp [get_combined_diff, h]

/-- Witness for `head_error_propagates` at the fresh repository. -/
theorem head_error_propagates_witness :
    fresh_repo.head_tree = .error ⟨"reference not found"⟩ ∧
    get_combined_diff fresh_repo false = .error (.GitError ⟨"reference not found"⟩) :=
  ⟨rfl, head_error_propagates fresh_repo false ⟨"reference not found"⟩ rfl⟩

/-- C4 counterexample: a snapshot-resolution failure and a diff-engine
failure propagate as the very same failure value, `GitError` wrapping the
underlying git error, so the two steps do not produce distinct failure
values. The last two conjuncts record that the first repository fails in
the resolution step and the second one only in the engine step. -/
theorem both_steps_same_failure_value :
    get_combined_diff repo_head_fail true = .error (.GitError ⟨"object corrupt"⟩) ∧
    get_combined_diff repo_diff_fail true = .error (.GitError ⟨"object corrupt"⟩) ∧
    repo_head_fail.head_tree = .error ⟨"object corrupt"⟩ ∧
    repo_diff_fail.head_tree = .ok [] :=
  ⟨rfl, rfl, rfl, rfl⟩

/-- C4 amended: every failure of `get_combined_diff`, from either step,
reaches the caller as the single `GitError` variant: identifiable as a git
failure, distinct from the non-git failure kinds, but carrying no
indication of which of the two steps failed. -/
theorem git_failures_share_variant (repo : Repo) (b : Bool) (e : CommitGPTError)
    (h : get_combined_diff repo b = .error e) :
    ∃ g, e = .GitError g := by
  cases hh : repo.head_tree with
  | error e1 =>
    simp [get_combined_diff, hh] at h
    exact ⟨e1, h.symm⟩
  | ok t =>
    cases b with
    | true =>
      cases hw : repo.workdir_diff_err with
      | none => simp [get_combined_diff, hh, diff_tree_to_workdir, hw] at h
      | some e2 =>
        simp [get_combined_diff, hh, diff_tree_to_workdir, hw] at h
        exact ⟨e2, h.symm⟩
    | false =>
      cases hi : repo.index with
      | error e2 =>
        simp [get_combined_diff, hh, hi] at h
        exact ⟨e2, h.symm⟩
      | ok i =>
        cases hd : repo.index_diff_err with
        | none => simp [get_combined_diff, hh, hi, diff_tree_to_index, hd] at h
        | some e2 =>
          simp [get_combined_diff, hh, hi, diff_tree_to_index, hd] at h
          exact ⟨e2, h.symm⟩

/-- Witness for `git_failures_share_variant` at the resolution-failure
repository. -/
theorem git_failures_share_variant_witness :
    get_combined_diff repo_head_fail true = .error (.GitError ⟨"object corrupt"⟩) ∧
    ∃ g, CommitGPTError.GitError ⟨"object corrupt"⟩ = .GitError g :=
  ⟨rfl, git_failures_share_variant repo_head_fail true _ rfl⟩

/-- C8: with the include-unstaged flag false, the comparison is the head
tree against the index with untracked inclusion and recursion disabled,
and the resulting diff cannot mention a path absent from both snapshots
(an untracked file lives only in the working tree); with the flag true,
the comparison is the head tree against the working tree with untracked
files included and recursed. -/
theorem staged_only_vs_unstaged_diff (repo : Repo) (t : Tree) (i : GitIndex)
    (ht : repo.head_tree = .ok t) (hi : repo.index = .ok i)
    (hie : repo.index_diff_err = none) (hwe : repo.workdir_diff_err = none) :
    get_combined_diff repo false =
      .ok (.treeToIndex t i { include_untracked := false, recurse_untracked_dirs := false }) ∧
    get_combined_diff repo true =
      .ok (.treeToWorkdir t { include_untracked := true, recurse_untracked_dirs := true }) ∧
    ∀ p, p ∉ t.map Prod.fst → p ∉ i.map Prod.fst → p ∉ indexDiffPaths t i := by
  refine ⟨?_, ?_, ?_⟩
  · simp [get_combined_diff, ht, hi, diff_tree_to_index, hie]
  · simp [get_combined_diff, ht, diff_tree_to_workdir, hwe]
  · intro p hpt hpi hmem
    simp only [indexDiffPaths, List.mem_filter, List.map_append, List.mem_append] at hmem
    rcases hmem with ⟨hmem | hmem, _⟩
    · exact hpt hmem
    · exact hpi hmem

/-- Witness for `staged_only_vs_unstaged_diff` at a repository with one
tracked file, staged modification, and an untracked path "b.txt". -/
theorem staged_only_vs_unstaged_diff_witness :
    c8_repo.head_tree = .ok [("a.txt", "old")] ∧
    (get_combined_diff c8_repo false =
        .ok (.treeToIndex [("a.txt", "old")] [("a.txt", "new")]
          { include_untracked := false, recurse_untracked_dirs := false }) ∧
      get_combined_diff c8_repo true =
        .ok (.treeToWorkdir [("a.txt", "old")]
          { include_untracked := true, recurse_untracked_dirs := true }) ∧
      ∀ p, p ∉ ([("a.txt", "old")] : Tree).map Prod.fst →
        p ∉ ([("a.txt", "new")] : GitIndex).map Prod.fst →
        p ∉ indexDiffPaths [("a.txt", "old")] [("a.txt", "new")]) :=
  ⟨rfl, staged_only_vs_unstaged_diff c8_repo _ _ rfl rfl rfl rfl⟩

/-- The bullet loop of the formatter, as a fold from any accumulator. -/
theorem bullets_foldl (ss : List String) (acc : String) :
    ss.foldl (fun f summary => f ++ "  - " ++ summary ++ "\n") acc = acc ++ spec_bullets ss := by
  induction ss generalizing acc with
  | nil => simp [spec_bullets]
  | cons s rest ih =>
    rw [List.foldl_cons, ih]
    simp [spec_bullets, String.append_assoc]

/-- The file loop of the formatter, as a fold from any accumulator. -/
theorem format_foldl (changes : List FileChange) (acc : String) :
    changes.foldl
      (fun formatted change =>
        change.summaries.foldl
          (fun f summary => f ++ "  - " ++ summary ++ "\n")
          (formatted ++ "- **" ++ change.file_path ++ "**: " ++ change.change_type ++ "\n"))
      acc = acc ++ spec_render changes := by
  induction changes generalizing acc with
  | nil => simp [spec_render]
  | cons c rest ih =>
    rw [List.foldl_cons, ih, bullets_foldl]
    simp [spec_render, spec_render_change, String.append_assoc]

/-- Helper: the formatter equals the per-file rendering concatenation. -/
theorem format_changes_eq_render (changes : List FileChange) :
    format_changes_for_prompt changes = spec_render changes := by
  simp [format_changes_for_prompt, format_foldl, String.empty_append]

/-- C6: the formatter yields exactly the empty string on an empty change
list, and otherwise the concatenation, per file change in order, of the
heading line followed by one indented bullet line per stored summary, all
by plain unescaped concatenation. -/
theorem format_eq_spec_render (changes : List FileChange) :
    format_changes_for_prompt changes = spec_render changes :=
  format_changes_eq_render changes

/-- C9: the formatter is deterministic: applied twice to the same change
list with no mutation in between, it produces byte-identical output. -/
theorem format_deterministic (c1 c2 : List FileChange) (h : c1 = c2) :
    (format_changes_for_prompt c1).data = (format_changes_for_prompt c2).data := by
  rw [h]

/-- Witness for `format_deterministic` at a one-file change list. -/
theorem format_deterministic_witness :
    ([⟨"a.txt", "Modified", ["Added: hello world"]⟩] : List FileChange) =
      [⟨"a.txt", "Modified", ["Added: hello world"]⟩] ∧
    (format_changes_for_prompt [⟨"a.txt", "Modified", ["Added: hello world"]⟩]).data =
      (format_changes_for_prompt [⟨"a.txt", "Modified", ["Added: hello world"]⟩]).data :=
  ⟨rfl, format_deterministic _ _ rfl⟩

/-! ## Association-list lemmas for the collector map -/

/-- Looking up after appending a fresh binding at the end. -/
theorem alLookup_append {α : Type} (m : List (String × α)) (k q : String) (v : α) :
    alLookup (m ++ [(k, v)]) q =
      match alLookup m q with
      | some x => some x
      | none => if k = q then some v else none := by
  induction m with
  | nil => simp [alLookup]
  | cons kv rest ih => by_cases h : kv.1 = q <;> simp [alLookup, h, ih]

/-- A key is absent exactly when the lookup misses. -/
theorem alLookup_eq_none {α : Type} (m : List (String × α)) (k : String) :
    alLookup m k = none ↔ k ∉ m.map Prod.fst := by
  induction m with
  | nil => simp [alLookup]
  | cons kv rest ih =>
    simp only [alLookup, List.map_cons, List.mem_cons]
    by_cases h : kv.1 = k
    · subst h
      simp
    · have hk : ¬ k = kv.1 := fun hh => h hh.symm
      simp [h, hk, ih]

/-- Pushing a summary never changes the key set. -/
theorem keys_push_summary (m : List (String × FileChange)) (k s : String) :
    (push_summary m k s).map Prod.fst = m.map Prod.fst := by
  induction m with
  | nil => rfl
  | cons kv rest ih =>
    by_cases h : kv.1 = k
    · simp only [push_summary, List.map_cons] at ih ⊢
      simp [h, ih]
    · simp only [push_summary, List.map_cons] at ih ⊢
      simp [h, ih]

/-- Pushing a summary at one key leaves every other lookup unchanged. -/
theorem alLookup_push_summary_ne (m : List (String × FileChange)) (k s q : String)
    (hq : q ≠ k) : alLookup (push_summary m k s) q = alLookup m q := by
  have hqk : ¬ k = q := fun hh => hq hh.symm
  induction m with
  | nil => rfl
  | cons kv rest ih =>
    simp only [push_summary] at ih
    by_cases hk : kv.1 = k
    · have hne : kv.1 ≠ q := fun hh => hq (by rw [← hh]; exact hk)
      simp [push_summary, alLookup, hk, hne, hqk, ih]
    · by_cases hkq : kv.1 = q
      · simp [push_summary, alLookup, hk, hkq, hqk, hq]
      · simp [push_summary, alLookup, hk, hkq, hq, ih]

/-- Pushing a summary updates the looked-up record at that key. -/
theorem alLookup_push_summary_eq (m : List (String × FileChange)) (k s : String) :
    alLookup (push_summary m k s) k =
      (alLookup m k).map (fun fc => { fc with summaries := fc.summaries ++ [s] }) := by
  induction m with
  | nil => rfl
  | cons kv rest ih =>
    simp only [push_summary] at ih
    by_cases hk : kv.1 = k
    · simp [push_summary, alLookup, hk]
    · simp [push_summary, alLookup, hk, ih]

/-! ## Unfolding lemmas for the summarizer and the line callback -/

/-- The summarizer on a line whose truncation does not panic. -/
theorem summarize_change_eq (line : DiffLine) (t : String)
    (h : truncate_content (rust_trim (from_utf8_lossy line.content)) = some t) :
    summarize_change line =
      some (if line.origin = '+' then "Added: " ++ t
        else if line.origin = '-' then "Removed: " ++ t else "") := by
  simp [summarize_change, h]

/-- The line callback on a line whose summary computation does not panic:
insert the fresh record for a first-seen path, then push the summary when
it is non-empty. -/
theorem process_line_eq (m : List (String × FileChange)) (delta : DiffDelta) (line : DiffLine)
    (s : String) (h : summarize_change line = some s) :
    process_line m delta line =
      some (if s.isEmpty then
          entry_or_insert m (delta_file_path delta)
            { file_path := delta_file_path delta,
              change_type := delta_change_type delta.status, summaries := [] }
        else
          push_summary
            (entry_or_insert m (delta_file_path delta)
              { file_path := delta_file_path delta,
                change_type := delta_change_type delta.status, summaries := [] })
            (delta_file_path delta) s) := by
  simp [process_line, h]

/-- C5 counterexample: on a context line whose trimmed content is 27 euro
signs (81 bytes) the summarizer does not return the empty string: the byte
slice panics before the origin is ever inspected. -/
theorem context_line_panics_not_empty :
    summarize_change ⟨euro_bytes, ' '⟩ = none ∧
    summarize_change ⟨euro_bytes, ' '⟩ ≠ some "" :=
  ⟨by decide, by decide⟩

/-- Helper: behaviour of the summarizer and the line callback by origin
marker, on a line whose truncation does not panic. -/
theorem summarize_by_origin (line : DiffLine) (t : String)
    (h : truncate_content (rust_trim (from_utf8_lossy line.content)) = some t) :
    (line.origin ≠ '+' → line.origin ≠ '-' →
      summarize_change line = some "" ∧
      ∀ (m : List (String × FileChange)) (delta : DiffDelta),
        process_line m delta line =
          some (entry_or_insert m (delta_file_path delta)
            { file_path := delta_file_path delta,
              change_type := delta_change_type delta.status, summaries := [] })) ∧
    (line.origin = '+' → summarize_change line = some ("Added: " ++ t)) ∧
    (line.origin = '-' → summarize_change line = some ("Removed: " ++ t)) := by
  have hs := summarize_change_eq line t h
  refine ⟨fun h1 h2 => ?_, fun h1 => ?_, fun h1 => ?_⟩
  · rw [if_neg h1, if_neg h2] at hs
    refine ⟨hs, fun m delta => ?_⟩
    rw [process_line_eq m delta line "" hs]
    rfl
  · rwa [if_pos h1] at hs
  · simp only [h1] at hs
    simpa using hs

/-- C5 amended: on every line whose truncation does not panic, an origin
other than the addition and removal markers yields the empty summary and
the collector appends nothing to any summaries list (at most the fresh
empty record is inserted); the addition marker yields "Added: " plus the
truncated content, and the removal marker "Removed: " plus the truncated
content. -/
theorem summarize_origin_behavior (line : DiffLine) (t : String)
    (h : truncate_content (rust_trim (from_utf8_lossy line.content)) = some t) :
    (line.origin ≠ '+' → line.origin ≠ '-' →
      summarize_change line = some "" ∧
      ∀ (m : List (String × FileChange)) (delta : DiffDelta),
        process_line m delta line =
          some (entry_or_insert m (delta_file_path delta)
            { file_path := delta_file_path delta,
              change_type := delta_change_type delta.status, summaries := [] })) ∧
    (line.origin = '+' → summarize_change line = some ("Added: " ++ t)) ∧
    (line.origin = '-' → summarize_change line = some ("Removed: " ++ t)) :=
  summarize_by_origin line t h

/-- Witness for `summarize_origin_behavior` at a short ASCII context line. -/
theorem summarize_origin_behavior_witness :
    truncate_content (rust_trim (from_utf8_lossy [0x68, 0x69])) = some "hi" ∧
    summarize_change ⟨[0x68, 0x69], ' '⟩ = some "" :=
  ⟨by decide,
    ((summarize_origin_behavior ⟨[0x68, 0x69], ' '⟩ "hi" (by decide)).1
      (by decide) (by decide)).1⟩

/-- The delta used by the C7 counterexample. -/
def panic_delta : DiffDelta := ⟨some "g.txt", none, .Added⟩

/-- C7 counterexample: the first observed line for a fresh path does not
always create its record: when the summary computation panics, the line
callback dies before touching the map and no change set results at all. -/
theorem first_line_panic_no_record :
    process_line [] panic_delta ⟨euro_bytes, '+'⟩ = none := by decide

/-- C7 amended: whenever the line callback completes, the map keeps one
record per distinct path (key uniqueness is preserved), every other path
is untouched, an already-present record keeps its path and kind and at
most gains appended summaries, and a first-seen path gains a record whose
kind comes from the status of the delta of this very line. -/
theorem process_line_map_invariant (m : List (String × FileChange)) (delta : DiffDelta)
    (line : DiffLine) (m' : List (String × FileChange))
    (h : process_line m delta line = some m') :
    ((m.map Prod.fst).Nodup → (m'.map Prod.fst).Nodup) ∧
    (∀ q, q ≠ delta_file_path delta → alLookup m' q = alLookup m q) ∧
    (∀ fc, alLookup m (delta_file_path delta) = some fc →
      ∃ tail, alLookup m' (delta_file_path delta) =
        some { file_path := fc.file_path, change_type := fc.change_type,
               summaries := fc.summaries ++ tail }) ∧
    (alLookup m (delta_file_path delta) = none →
      ∃ ss, alLookup m' (delta_file_path delta) =
        some { file_path := delta_file_path delta,
               change_type := delta_change_type delta.status, summaries := ss }) := by
  simp only [process_line] at h
  obtain ⟨s, hs, hm⟩ := Option.map_eq_some'.mp h
  cases hlk : alLookup m (delta_file_path delta) with
  | some fc =>
    have he : entry_or_insert m (delta_file_path delta)
        { file_path := delta_file_path delta,
          change_type := delta_change_type delta.status, summaries := [] } = m := by
      simp [entry_or_insert, hlk]
    rw [he] at hm
    by_cases hempty : s.isEmpty
    · rw [if_pos hempty] at hm
      subst hm
      refine ⟨id, fun q _ => rfl, fun fc2 hfc2 => ⟨[], by cases hfc2; rw [hlk]; simp⟩,
        fun hnone => by cases hnone⟩
    · rw [if_neg hempty] at hm
      subst hm
      refine ⟨by rw [keys_push_summary]; exact id,
        fun q hq => alLookup_push_summary_ne m _ s q hq,
        fun fc2 hfc2 => ⟨[s], by cases hfc2; rw [alLookup_push_summary_eq, hlk]; rfl⟩,
        fun hnone => by cases hnone⟩
  | none =>
    have he : entry_or_insert m (delta_file_path delta)
        { file_path := delta_file_path delta,
          change_type := delta_change_type delta.status, summaries := [] } =
        m ++ [(delta_file_path delta,
          { file_path := delta_file_path delta,
            change_type := delta_change_type delta.status, summaries := [] })] := by
      simp [entry_or_insert, hlk]
    rw [he] at hm
    have hfresh : delta_file_path delta ∉ m.map Prod.fst := (alLookup_eq_none m _).mp hlk
    have hkeys : ((m ++ [(delta_file_path delta,
        ({ file_path := delta_file_path delta,
           change_type := delta_change_type delta.status,
           summaries := [] } : FileChange))]).map Prod.fst).Nodup ↔
        (m.map Prod.fst).Nodup := by
      simp [List.nodup_append, hfresh]
    have hlq : ∀ q, q ≠ delta_file_path delta →
        alLookup (m ++ [(delta_file_path delta,
          ({ file_path := delta_file_path delta,
             change_type := delta_change_type delta.status,
             summaries := [] } : FileChange))]) q = alLookup m q := by
      intro q hq
      rw [alLookup_append]
      cases alLookup m q <;> simp [Ne.symm hq]
    have hlfp : alLookup (m ++ [(delta_file_path delta,
        ({ file_path := delta_file_path delta,
           change_type := delta_change_type delta.status,
           summaries := [] } : FileChange))]) (delta_file_path delta) =
        some ({ file_path := delta_file_path delta,
                change_type := delta_change_type delta.status,
                summaries := [] } : FileChange) := by
      rw [alLookup_append, hlk]
      simp
    by_cases hempty : s.isEmpty
    · rw [if_pos hempty] at hm
      subst hm
      exact ⟨fun hn => hkeys.mpr hn, hlq,
        fun fc2 hfc2 => by simp at hfc2,
        fun _ => ⟨[], hlfp⟩⟩
    · rw [if_neg hempty] at hm
      subst hm
      refine ⟨fun hn => by rw [keys_push_summary]; exact hkeys.mpr hn,
        fun q hq => by rw [alLookup_push_summary_ne _ _ _ _ hq]; exact hlq q hq,
        fun fc2 hfc2 => by simp at hfc2,
        fun _ => ⟨[s], by rw [alLookup_push_summary_eq, hlfp]; simp⟩⟩

/-- Witness for `process_line_map_invariant` at a first-seen path. -/
theorem process_line_map_invariant_witness :
    process_line [] (⟨some "a.txt", none, .Modified⟩ : DiffDelta) ⟨[0x68, 0x69], '+'⟩ =
      some [("a.txt", ⟨"a.txt", "Modified", ["Added: hi"]⟩)] ∧
    (alLookup ([] : List (String × FileChange)) "a.txt" = none →
      ∃ ss, alLookup [("a.txt", (⟨"a.txt", "Modified", ["Added: hi"]⟩ : FileChange))] "a.txt" =
        some ⟨"a.txt", "Modified", ss⟩) :=
  ⟨by decide,
    (process_line_map_invariant [] ⟨some "a.txt", none, .Modified⟩ ⟨[0x68, 0x69], '+'⟩
      [("a.txt", ⟨"a.txt", "Modified", ["Added: hi"]⟩)] (by decide)).2.2.2⟩

/-- The delta used by the C10 counterexample. -/
def c10_delta : DiffDelta := ⟨some "h.txt", none, .Renamed⟩

/-- C10 counterexample: a delta whose only visited line is non-informative
does not always produce a record: when that context line panics in the
summary computation, the traversal aborts and no change set results. -/
theorem context_only_file_no_record_on_panic :
    collect_changes [(c10_delta, [[⟨euro_bytes, ' '⟩]])] = none := by decide

/-- Context-only, panic-free lines leave a map that already holds the
record of their path unchanged. -/
theorem process_lines_seen (delta : DiffDelta) (lines : List DiffLine)
    (m : List (String × FileChange))
    (hctx : ∀ l ∈ lines, l.origin ≠ '+' ∧ l.origin ≠ '-')
    (hok : ∀ l ∈ lines, ∃ t, truncate_content (rust_trim (from_utf8_lossy l.content)) = some t)
    (hseen : ∃ fc, alLookup m (delta_file_path delta) = some fc) :
    process_lines m (lines.map (fun l => (delta, l))) = some m := by
  induction lines with
  | nil => rfl
  | cons l rest ih =>
    obtain ⟨t, ht⟩ := hok l (by simp)
    obtain ⟨h1, h2⟩ := hctx l (by simp)
    have hp := ((summarize_by_origin l t ht).1 h1 h2).2 m delta
    obtain ⟨fc, hfc⟩ := hseen
    have he : entry_or_insert m (delta_file_path delta)
        { file_path := delta_file_path delta,
          change_type := delta_change_type delta.status, summaries := [] } = m := by
      simp [entry_or_insert, hfc]
    rw [he] at hp
    simp only [List.map_cons, process_lines, hp]
    exact ih (fun l2 hl2 => hctx l2 (by simp [hl2])) (fun l2 hl2 => hok l2 (by simp [hl2]))

/-- C10 amended: a file delta whose visited lines are all non-informative
and none of which panics still produces a record with an empty summaries
list (the record is inserted on the first visited line, before the
emptiness check), and its formatted block is exactly the heading line with
no bullet lines beneath it. -/
theorem context_only_file_empty_summaries (delta : DiffDelta) (lines : List DiffLine)
    (hne : lines ≠ [])
    (hctx : ∀ l ∈ lines, l.origin ≠ '+' ∧ l.origin ≠ '-')
    (hok : ∀ l ∈ lines, ∃ t, truncate_content (rust_trim (from_utf8_lossy l.content)) = some t) :
    collect_changes [(delta, [lines])] =
      some [(delta_file_path delta,
        { file_path := delta_file_path delta,
          change_type := delta_change_type delta.status, summaries := [] })] ∧
    format_changes_for_prompt
      [{ file_path := delta_file_path delta,
         change_type := delta_change_type delta.status, summaries := [] }] =
      "- **" ++ delta_file_path delta ++ "**: " ++ delta_change_type delta.status ++ "\n" := by
  constructor
  · cases lines with
    | nil => exact absurd rfl hne
    | cons l rest =>
      obtain ⟨t, ht⟩ := hok l (by simp)
      obtain ⟨h1, h2⟩ := hctx l (by simp)
      have hp := ((summarize_by_origin l t ht).1 h1 h2).2 [] delta
      have he : entry_or_insert []
          (delta_file_path delta)
          { file_path := delta_file_path delta,
            change_type := delta_change_type delta.status, summaries := [] } =
          [(delta_file_path delta,
            { file_path := delta_file_path delta,
              change_type := delta_change_type delta.status, summaries := [] })] := rfl
      rw [he] at hp
      show process_lines [] (flatten_diff [(delta, [l :: rest])]) = _
      simp only [flatten_diff, flatten_hunks, List.append_eq, List.append_nil,
        List.map_cons, process_lines, hp]
      exact process_lines_seen delta rest
        [(delta_file_path delta,
          { file_path := delta_file_path delta,
            change_type := delta_change_type delta.status, summaries := [] })]
        (fun l2 hl2 => hctx l2 (by simp [hl2]))
        (fun l2 hl2 => hok l2 (by simp [hl2]))
        ⟨{ file_path := delta_file_path delta,
           change_type := delta_change_type delta.status, summaries := [] },
          by simp [alLookup]⟩
  · rw [format_changes_eq_render]
    simp [spec_render, spec_render_change, spec_bullets, String.append_empty]

/-- Witness for `context_only_file_empty_summaries` at a one-context-line
delta. -/
theorem context_only_file_empty_summaries_witness :
    collect_changes [((⟨some "c.txt", none, .Copied⟩ : DiffDelta), [[⟨[0x78], ' '⟩]])] =
      some [("c.txt", ⟨"c.txt", "Copied", []⟩)] :=
  (context_only_file_empty_summaries ⟨some "c.txt", none, .Copied⟩ [⟨[0x78], ' '⟩]
    (by decide)
    (by intro l hl; simp at hl; subst hl; exact ⟨by decide, by decide⟩)
    (by intro l hl; simp at hl; subst hl; exact ⟨"x", by decide⟩)).1

end CommitGPT
